import Mathlib

/-!
Verification of the Orpheus transcript scoring module (`orpheus/tools/scorer.py`)
against its natural-language specification.

The Python module is shallowly embedded below: every definition mirrors a
function (or a clearly delimited piece of one) of `scorer.py`; the source
line numbers are given in the doc comments.  Conventions of the embedding:

* Python `dict` (insertion-ordered, update-in-place) is modelled as a
  `List (key × value)` with `lookupA` / `updIns`.
* Python `set` is modelled as a `List` used only through membership.
* Python `float` is modelled by exact rationals `ℚ` (the spec states all
  scoring arithmetic in exact decimal terms).
* Python `int` is `Int`; Python floor division `//` is `Int.fdiv`.
* Fallible code (uncaught `ValueError` / `ZeroDivisionError` /
  `IndexError` escaping a function) is modelled with `Except String`.
* File I/O success of the exporters is modelled by boolean oracles; the
  pure content transformations are modelled directly.
-/

namespace Orpheus

/-! ### Python string primitives

The Python string methods the module uses (`strip`, `split`, `startswith`,
`in`) are modelled structurally on the character list of a `String`, so that
every parser below is a plain structurally-recursive function. -/

/-- Python `s.strip()`: remove leading and trailing whitespace. -/
def pyStripL (l : List Char) : List Char :=
  ((l.dropWhile Char.isWhitespace).reverse.dropWhile Char.isWhitespace).reverse

/-- Python `s.strip()` on `String`. -/
def pyStrip (s : String) : String := ⟨pyStripL s.data⟩

/-- Python `s.split(sep)` for a one-character separator and no maxsplit:
split at every occurrence, keeping empty fields.  The accumulator of the
fold is never empty (it starts as `[[]]`). -/
def pySplitSepL (sep : Char) (l : List Char) : List (List Char) :=
  l.foldr (fun c acc =>
    if c = sep then [] :: acc
    else
      match acc with
      | [] => [[c]]
      | g :: gs => (c :: g) :: gs) [[]]

/-- Python `s.split(sep)` on `String`. -/
def pySplitSep (sep : Char) (s : String) : List String :=
  (pySplitSepL sep s.data).map (fun g => ⟨g⟩)

/-- Python `s.split(sep, 1)`: split at the first occurrence only; `none`
when the separator does not occur (Python `sep in s` guard). -/
def pySplitFirstL (sep : Char) : List Char → Option (List Char × List Char)
  | [] => none
  | c :: rest =>
    if c = sep then some ([], rest)
    else
      match pySplitFirstL sep rest with
      | some (k, v) => some (c :: k, v)
      | none => none

/-- Python `s.startswith(c)` for a one-character prefix. -/
def pyStartsWith (c : Char) (s : String) : Bool :=
  match s.data with
  | [] => false
  | c0 :: _ => c0 = c

/-- Substring occurrence on character lists (Python `pat in s`). -/
def containsL (pat : List Char) : List Char → Bool
  | [] => pat.isEmpty
  | c :: rest => pat.isPrefixOf (c :: rest) || containsL pat rest

/-- Python `pat in s` on `String`. -/
def pyContains (s pat : String) : Bool := containsL pat.data s.data

/-- Split at every character satisfying `p`, keeping empty fields. -/
def pySplitPredL (p : Char → Bool) (l : List Char) : List (List Char) :=
  l.foldr (fun c acc =>
    if p c then [] :: acc
    else
      match acc with
      | [] => [[c]]
      | g :: gs => (c :: g) :: gs) [[]]

/-- Python `s.split()` with no argument: split on whitespace runs,
discarding empty fields. -/
def pySplitWs (s : String) : List String :=
  ((pySplitPredL Char.isWhitespace s.data).filter (fun g => !g.isEmpty)).map
    (fun g => (⟨g⟩ : String))

/-! ### Identifier normalization -/

/-- Trailing-digit run of a character list, scanning from the right. -/
def trailingDigits (l : List Char) : List Char :=
  l.reverse.takeWhile Char.isDigit

/-- `scorer.py` line 328, `re.sub(r'\.p\d+$', '', query_id)` on the
character-list level: if the string ends with `.p` followed by at least one
digit, remove that single trailing suffix, otherwise return it unchanged.
(The regex is anchored at the end, so exactly one such suffix — with the
maximal digit run, since the character before the digits must be `p` — can
match, and `re.sub` removes at most that one occurrence.) -/
def homStripL (l : List Char) : List Char :=
  let r := l.reverse
  let ds := r.takeWhile Char.isDigit
  let rest := r.dropWhile Char.isDigit
  if ds ≠ [] ∧ rest.take 2 = ['p', '.'] then (rest.drop 2).reverse else l

/-- Gene-grouping key used by `parse_homology_results` (line 328). -/
def homStripGene (s : String) : String := ⟨homStripL s.data⟩

/-- `scorer.py` lines 113-114: the BUSCO parser strips the ORF suffix only
when the sequence id ends with the literal `.p1` or `.p2`, in which case it
keeps everything before the final dot (`rsplit` with one split).  Inside the
guard the final dot is exactly the one of the suffix, so the result is the
string without its last three characters. -/
def buscoStripL (l : List Char) : List Char :=
  if l.reverse.take 3 = ['1', 'p', '.'] ∨ l.reverse.take 3 = ['2', 'p', '.'] then
    (((l.reverse.dropWhile (fun c => c ≠ '.')).drop 1).reverse)
  else l

/-- Transcript id used by `parse_busco_results` (lines 112-114). -/
def buscoStripId (s : String) : String := ⟨buscoStripL s.data⟩

/-! ### Insertion-ordered association lists (Python `dict` model) -/

/-- Lookup in a Python-dict model. -/
def lookupA {α : Type} : List (String × α) → String → Option α
  | [], _ => none
  | (k', v) :: rest, k => if k' = k then some v else lookupA rest k

/-- `d[k] = v` on a Python dict: replaces the value in place if the key is
present (keeping its position), otherwise appends at the end. -/
def updIns {α : Type} : List (String × α) → String → α → List (String × α)
  | [], k, v => [(k, v)]
  | (k', v') :: rest, k, v =>
      if k' = k then (k, v) :: rest else (k', v') :: updIns rest k v

/-! ### Python numeric literal parsing -/

/-- Numeric value of a digit list (most significant first). -/
def digitsToNat (ds : List Char) : Nat :=
  ds.foldl (fun acc c => acc * 10 + (c.toNat - '0'.toNat)) 0

/-- Model of Python `int(s)` on optionally-signed decimal digit strings
(surrounding whitespace stripped); any other string raises, modelled as
`none`. -/
def pyInt? (s : String) : Option Int :=
  let l := pyStripL s.data
  let p : Bool × List Char :=
    match l with
    | '-' :: rest => (true, rest)
    | '+' :: rest => (false, rest)
    | _ => (false, l)
  if p.2 ≠ [] ∧ p.2.all Char.isDigit then
    some (if p.1 then -(digitsToNat p.2 : Int) else (digitsToNat p.2 : Int))
  else none

/-- Model of Python `float(s)` on optionally-signed decimal strings of the
form `digits`, `digits.digits`, `.digits` or `digits.`; any other string
raises, modelled as `none`.  The value is exact (see header note on `ℚ`). -/
def pyFloat? (s : String) : Option ℚ :=
  let l := pyStripL s.data
  let p : Bool × List Char :=
    match l with
    | '-' :: rest => (true, rest)
    | '+' :: rest => (false, rest)
    | _ => (false, l)
  match p.2.splitOn '.' with
  | [ip] =>
      if ip ≠ [] ∧ ip.all Char.isDigit then
        some ((if p.1 then -1 else 1) * (digitsToNat ip : ℚ))
      else none
  | [ip, fp] =>
      if (ip ++ fp) ≠ [] ∧ ip.all Char.isDigit ∧ fp.all Char.isDigit then
        some ((if p.1 then -1 else 1) *
          ((digitsToNat ip : ℚ) + (digitsToNat fp : ℚ) / (10 : ℚ) ^ fp.length))
      else none
  | _ => none

/-! ### GFF3 attribute parsing -/

/-- `scorer.py` lines 197-201 / 244-248: build the attribute dict from a
`;`-separated list of `key=value` pairs (`split('=', 1)`, so the value keeps
any further `=` signs; a later duplicate key overwrites an earlier one) and
read `key`, defaulting to the empty string. -/
def attrGet (attributes key : String) : String :=
  ((pySplitSep ';' attributes).filterMap (fun a =>
      match pySplitFirstL '=' a.data with
      | none => none
      | some (k, v) =>
          if (⟨k⟩ : String) = key then some ((⟨v⟩ : String)) else none)).getLast?.getD ""

/-! ### Data model -/

/-- Pass-1 record of `parse_gff3` (lines 220-223). -/
structure MrnaInfo where
  type : String
  transcriptId : String
deriving DecidableEq, Repr

/-- Per-transcript ORF record of `parse_gff3` (lines 267-274).  The
completeness class is kept as the literal string the source uses. -/
structure ORFRecord where
  gene : String
  type : String
  length : Int
  score : ℚ
  cstart : Int
  cend : Int
  strand : String
deriving DecidableEq, Repr, Inhabited

/-- BUSCO detail record of `parse_busco_results` (lines 119-124). -/
structure BuscoDetail where
  buscoId : String
  status : String
  score : String
  length : String
deriving DecidableEq, Repr, Inhabited

/-- Homology detail record of `parse_homology_results` (lines 333-338). -/
structure HomDetail where
  subject : String
  identity : String
  evalue : String
  bitscore : String
deriving DecidableEq, Repr, Inhabited

/-- Weight dictionary of `calculate_scores` ( `busco` / `completeness` /
`homology` / `length` keys). -/
structure Weights where
  busco : ℚ
  completeness : ℚ
  homology : ℚ
  length : ℚ
deriving DecidableEq, Repr

/-- Default weights, `scorer.py` lines 377-383. -/
def defaultWeights : Weights := ⟨4/10, 3/10, 2/10, 1/10⟩

/-- No-BUSCO fallback weights, `scorer.py` lines 388-393. -/
def fallbackWeights : Weights := ⟨0, 5/10, 3/10, 2/10⟩

/-- Effective weight selection of `calculate_scores`, lines 376-393: first
the default is substituted when the caller passed `None`, then — regardless
of what the caller passed — the whole set is replaced by the fallback when
the BUSCO gene set is empty (Python `if not busco_genes:`, which also fires
on `None`, modelled here as the empty list). -/
def effectiveWeights (buscoGenes : List String) (weights : Option Weights) : Weights :=
  let w := match weights with
    | none => defaultWeights
    | some w => w
  if buscoGenes.isEmpty then fallbackWeights else w

/-! ### parse_gff3 (lines 150-287) -/

/-- ORF type classification from the mRNA `Name` attribute, lines 209-218
(first matching token wins, in source order). -/
def classifyOrfType (name : String) : String :=
  if pyContains name "type%3Acomplete" || pyContains name "type:complete" then "complete"
  else if pyContains name "type%3Ainternal" || pyContains name "type:internal" then "internal"
  else if pyContains name "type%3A5prime_partial" || pyContains name "type:5prime_partial" then "5prime_partial"
  else if pyContains name "type%3A3prime_partial" || pyContains name "type:3prime_partial" then "3prime_partial"
  else "unknown"

/-- Amino-acid length of a CDS span, line 263: `(int(end) - int(start) + 1) // 3`
with Python floor division. -/
def aaLen (s e : Int) : Int := (e - s + 1).fdiv 3

/-- Row-level view shared by both passes of `parse_gff3` (lines 180-190 and
227-237): strip the line, skip blanks, comments and rows with fewer than 9
tab fields, unpack exactly 9 fields; a row with more than 9 tab fields makes
the 9-name tuple unpacking raise (`tooMany`), aborting the parse. -/
inductive RowView where
  | skip : RowView
  | tooMany : RowView
  | fields (seqid source ftype start stop score strand phase attributes : String) : RowView
deriving DecidableEq, Repr

/-- Classify one raw line of the GFF3 file as both passes do. -/
def rowView (line : String) : RowView :=
  let l := pyStrip line
  if l = "" || pyStartsWith '#' l then .skip
  else
    match pySplitSep '\t' l with
    | [a, b, c, d, e, f, g, h, i] => .fields a b c d e f g h i
    | fs => if fs.length < 9 then .skip else .tooMany

/-- One line of pass 1 of `parse_gff3` (lines 179-223).  A non-mRNA feature
and an mRNA row without an `ID` attribute are skipped. -/
def pass1Step (st : Except String (List (String × MrnaInfo))) (line : String) :
    Except String (List (String × MrnaInfo)) :=
  match st with
  | .error e => .error e
  | .ok m =>
    match rowView line with
    | .skip => .ok m
    | .tooMany => .error "ValueError: too many values to unpack"
    | .fields seqid _source ftype _s _e _sc _strand _phase attributes =>
      if ftype ≠ "mRNA" then .ok m
      else
        let mrnaId := attrGet attributes "ID"
        if mrnaId = "" then .ok m
        else
          let name := attrGet attributes "Name"
          .ok (updIns m mrnaId ⟨classifyOrfType name, seqid⟩)

/-- Pass 1 of `parse_gff3` over the whole file. -/
def pass1 (lines : List String) : Except String (List (String × MrnaInfo)) :=
  lines.foldl pass1Step (.ok [])

/-- Normalized length score denominator, line 422:
`max((info['length'] for info in orf_info.values()), default=1)`. -/
def maxLength : List Int → Int
  | [] => 1
  | x :: xs => xs.foldl max x

/-- One line of pass 2 of `parse_gff3` (lines 226-274).  Non-CDS rows and
CDS rows without a `Parent` attribute are skipped.  For a processed CDS row,
`int(end)` and `int(start)` are evaluated unconditionally (an unparsable
value raises and aborts the parse); the record — including `float(score)`,
which can also raise — is only built when the row is retained, i.e. when the
transcript is new or the new length is strictly greater. -/
def pass2Step (mrna : List (String × MrnaInfo))
    (st : Except String (List (String × ORFRecord))) (line : String) :
    Except String (List (String × ORFRecord)) :=
  match st with
  | .error e => .error e
  | .ok tbl =>
    match rowView line with
    | .skip => .ok tbl
    | .tooMany => .error "ValueError: too many values to unpack"
    | .fields seqid _source ftype s e sc strand _phase attributes =>
      if ftype ≠ "CDS" then .ok tbl
      else
        let mrnaId := attrGet attributes "Parent"
        if mrnaId = "" then .ok tbl
        else
          match pyInt? e, pyInt? s with
          | some ei, some si =>
            let orfType := match lookupA mrna mrnaId with
              | some info => info.type
              | none => "unknown"
            let len := aaLen si ei
            let retained : Bool := match lookupA tbl seqid with
              | none => true
              | some old => decide (old.length < len)
            if retained then
              match (if sc = "." then some (0 : ℚ) else pyFloat? sc) with
              | some scq =>
                  .ok (updIns tbl seqid ⟨mrnaId, orfType, len, scq, si, ei, strand⟩)
              | none => .error "ValueError: could not convert string to float"
            else .ok tbl
          | _, _ => .error "ValueError: invalid literal for int"

/-- Pass 2 of `parse_gff3` over the whole file, from a given mRNA map. -/
def pass2 (mrna : List (String × MrnaInfo)) (lines : List String) :
    Except String (List (String × ORFRecord)) :=
  lines.foldl (pass2Step mrna) (.ok [])

/-- `TranscriptScorer.parse_gff3` (lines 150-287) on the list of lines of the
file: two passes, the second using the mRNA map of the first. -/
def parse_gff3 (lines : List String) : Except String (List (String × ORFRecord)) :=
  match pass1 lines with
  | .error e => .error e
  | .ok m => pass2 m lines

/-- Observation of a raw line used to state properties of `parse_gff3`: the
sequence id and amino-acid length of a 9-field CDS row carrying a `Parent`
attribute and parsable coordinates — exactly the rows pass 2 processes up to
the length computation of line 263. -/
def cdsRowLen (line : String) : Option (String × Int) :=
  match rowView line with
  | .fields seqid _source ftype s e _sc _strand _phase attributes =>
    if ftype ≠ "CDS" then none
    else if attrGet attributes "Parent" = "" then none
    else
      match pyInt? e, pyInt? s with
      | some ei, some si => some (seqid, aaLen si ei)
      | _, _ => none
  | _ => none

/-- Observation of a raw line: the full record pass 2 builds from it when the
row is retained (lines 266-274), given the pass-1 mRNA map. -/
def cdsRowRec (mrna : List (String × MrnaInfo)) (line : String) :
    Option (String × ORFRecord) :=
  match rowView line with
  | .fields seqid _source ftype s e sc strand _phase attributes =>
    if ftype ≠ "CDS" then none
    else
      let mrnaId := attrGet attributes "Parent"
      if mrnaId = "" then none
      else
        match pyInt? e, pyInt? s with
        | some ei, some si =>
          let orfType := match lookupA mrna mrnaId with
            | some info => info.type
            | none => "unknown"
          match (if sc = "." then some (0 : ℚ) else pyFloat? sc) with
          | some scq => some (seqid, ⟨mrnaId, orfType, aaLen si ei, scq, si, ei, strand⟩)
          | none => none
        | _, _ => none
  | _ => none

/-- Lines `parse_gff3` ignores in both passes: blank and comment lines, rows
with fewer than 9 tab fields, and 9-field rows whose feature type is neither
`mRNA` nor `CDS`. -/
def gffIgnorable (line : String) : Bool :=
  match rowView line with
  | .skip => true
  | .tooMany => false
  | .fields _seqid _source ftype _s _e _sc _strand _phase _attributes =>
    ftype ≠ "mRNA" && ftype ≠ "CDS"

/-! ### parse_homology_results (lines 289-342) -/

/-- One line of `parse_homology_results` (lines 309-338): skip blanks,
comments and rows with fewer than 2 tab fields; strip the ORF suffix of the
query id to get the gene grouping key; add it to the evidence set and record
the first-seen detail row per key. -/
def homStep (st : List String × List (String × HomDetail)) (line : String) :
    List String × List (String × HomDetail) :=
  let l := pyStrip line
  if l = "" || pyStartsWith '#' l then st
  else
    let fields := pySplitSep '\t' l
    if fields.length < 2 then st
    else
      let queryId := fields.headD ""
      let subjectId := fields.getD 1 ""
      let identity := if fields.length > 2 then fields.getD 2 "" else "-"
      let evalue := if fields.length > 10 then fields.getD 10 "" else "-"
      let bitscore := if fields.length > 11 then fields.getD 11 "" else "-"
      let geneId := homStripGene queryId
      let genes := st.1 ++ [geneId]
      let details := match lookupA st.2 geneId with
        | some _ => st.2
        | none => st.2 ++ [(geneId, ⟨subjectId, identity, evalue, bitscore⟩)]
      (genes, details)

/-- `TranscriptScorer.parse_homology_results` on the list of lines of the
file.  The evidence set is modelled as the list of (possibly repeated)
grouping keys, used only through membership. -/
def parse_homology_results (lines : List String) :
    List String × List (String × HomDetail) :=
  lines.foldl homStep ([], [])

/-! ### parse_busco_results, core row loop (lines 88-124) -/

/-- One line of the `full_table.tsv` loop of `parse_busco_results`
(lines 90-124): skip blanks, comments and rows with fewer than 3 tab fields;
keep Complete/Duplicated/Fragmented rows with a real sequence id, stripping
the id with `buscoStripId`; the detail map is overwritten on a repeated key
(last occurrence wins). -/
def buscoStep (st : List String × List (String × BuscoDetail)) (line : String) :
    List String × List (String × BuscoDetail) :=
  let l := pyStrip line
  if l = "" || pyStartsWith '#' l then st
  else
    let fields := pySplitSep '\t' l
    if fields.length < 3 then st
    else
      let buscoId := fields.headD ""
      let status := fields.getD 1 ""
      let sequence := fields.getD 2 ""
      let score := if fields.length > 3 then fields.getD 3 "" else "-"
      let length := if fields.length > 4 then fields.getD 4 "" else "-"
      if (status = "Complete" || status = "Duplicated" || status = "Fragmented")
          && sequence ≠ "-" then
        let tid := buscoStripId sequence
        (st.1 ++ [tid], updIns st.2 tid ⟨buscoId, status, score, length⟩)
      else st

/-- Row loop of `TranscriptScorer.parse_busco_results` on the lines of the
located `full_table.tsv` (file discovery by `glob` is I/O glue, out of the
embedded core). -/
def parse_busco_rows (lines : List String) :
    List String × List (String × BuscoDetail) :=
  lines.foldl buscoStep ([], [])

/-! ### calculate_scores (lines 344-468) -/

/-- BUSCO status score table, lines 406-410 (`dict.get` default 0). -/
def buscoStatusScore (status : String) : ℚ :=
  if status = "Complete" then 1
  else if status = "Duplicated" then 1
  else if status = "Fragmented" then 1/2
  else 0

/-- ORF completeness score table, lines 413-419 (`dict.get` default 0). -/
def completenessScore (t : String) : ℚ :=
  if t = "complete" then 1
  else if t = "5prime_partial" then 6/10
  else if t = "3prime_partial" then 6/10
  else if t = "internal" then 3/10
  else if t = "unknown" then 0
  else 0

/-- Length score, line 441: `info['length'] / max_length` — Python true
division of two ints, raising `ZeroDivisionError` when the denominator is 0
(that case is caught in `scoreOne` below). -/
def lengthScoreQ (len maxLen : Int) : ℚ := (len : ℚ) / (maxLen : ℚ)

/-- The four-term weighted sum of lines 427-449 for one transcript.  Note
lines 437-438: the homology membership test uses the record's `gene` field
(the raw CDS `Parent` id) verbatim, with no suffix stripping. -/
def scoreOnePure (w : Weights) (buscoGenes : List String)
    (buscoDetails : List (String × BuscoDetail)) (homologyGenes : List String)
    (maxLen : Int) (p : String × ORFRecord) : ℚ :=
  let buscoScore : ℚ :=
    if p.1 ∈ buscoGenes then
      match lookupA buscoDetails p.1 with
      | some d => buscoStatusScore d.status
      | none => 0
    else 0
  let compScore := completenessScore p.2.type
  let homologyScore : ℚ := if p.2.gene ∈ homologyGenes then 1 else 0
  let lengthScore := lengthScoreQ p.2.length maxLen
  w.busco * buscoScore + w.completeness * compScore +
    w.homology * homologyScore + w.length * lengthScore

/-- Loop body of `calculate_scores` (lines 426-451) for one transcript.  The
true division `info['length'] / max_length` raises `ZeroDivisionError` on a
zero denominator, modelled as an error. -/
def scoreOne (w : Weights) (buscoGenes : List String)
    (buscoDetails : List (String × BuscoDetail)) (homologyGenes : List String)
    (maxLen : Int) (p : String × ORFRecord) : Except String (String × ℚ) :=
  if maxLen = 0 then .error "ZeroDivisionError: division by zero"
  else .ok (p.1, scoreOnePure w buscoGenes buscoDetails homologyGenes maxLen p)

/-- `TranscriptScorer.calculate_scores` (lines 344-468): select the
effective weights, compute the normalization denominator, and score every
transcript of the ORF table in order. -/
def calculate_scores (orfInfo : List (String × ORFRecord))
    (homologyGenes : List String) (buscoGenes : List String)
    (buscoDetails : List (String × BuscoDetail))
    (weights : Option Weights) : Except String (List (String × ℚ)) :=
  let w := effectiveWeights buscoGenes weights
  let maxLen := maxLength (orfInfo.map (fun p => p.2.length))
  orfInfo.mapM (scoreOne w buscoGenes buscoDetails homologyGenes maxLen)

/-! ### filter_transcripts (lines 470-515) -/

/-- Stable insertion of a pair into a score-descending sorted list: the new
pair goes before the first pair whose score is not strictly greater.  Folded
below this reproduces exactly Python
`sorted(scores.items(), key=lambda x: x[1], reverse=True)`, which is the
unique score-descending permutation preserving the relative order of
equal-score pairs. -/
def insertDesc (p : String × ℚ) : List (String × ℚ) → List (String × ℚ)
  | [] => [p]
  | q :: rest => if q.2 > p.2 then q :: insertDesc p rest else p :: q :: rest

/-- Stable score-descending sort (line 493). -/
def sortDesc : List (String × ℚ) → List (String × ℚ)
  | [] => []
  | p :: rest => insertDesc p (sortDesc rest)

/-- Python slice `l[:n]` for an arbitrary integer `n`: the first `n`
elements when `n ≥ 0`, everything but the last `-n` elements when `n < 0`. -/
def pySliceTake {α : Type} (l : List α) (n : Int) : List α :=
  if 0 ≤ n then l.take n.toNat else l.take (l.length - n.natAbs)

/-- `TranscriptScorer.filter_transcripts` (lines 470-515): stable sort by
score descending, keep scores `≥ threshold`, then apply the count cap.  The
cap check at line 499 is Python `if top_n and len(filtered) > top_n:`, so a
`top_n` of `None` — and also a falsy `top_n` of `0` — leaves the list
uncapped. -/
def filter_transcripts (scores : List (String × ℚ)) (threshold : ℚ)
    (topN : Option Int) : List String :=
  let sortedT := sortDesc scores
  let filtered := sortedT.filter (fun p => p.2 ≥ threshold)
  let capped := match topN with
    | none => filtered
    | some n => if n ≠ 0 ∧ (filtered.length : Int) > n then pySliceTake filtered n else filtered
  capped.map (fun p => p.1)

/-- The Filter/Selector as worded by the spec (§4.5 / claim C5): drop the
entries below the threshold from the stably score-descending-sorted list;
keep all survivors when `topN` is unset or the survivor count is at most
`topN`, otherwise keep the first `topN`.  Written only to be compared with
`filter_transcripts`. -/
def filter_transcripts_claimC5 (scores : List (String × ℚ)) (threshold : ℚ)
    (topN : Option Int) : List String :=
  let filtered := (sortDesc scores).filter (fun p => p.2 ≥ threshold)
  let capped := match topN with
    | none => filtered
    | some n => if (filtered.length : Int) ≤ n then filtered else filtered.take n.toNat
  capped.map (fun p => p.1)

/-! ### Exporters (lines 517-565, 649-699) -/

/-- Identifier of a sequence-file header line: the first whitespace token
after the marker, `line[1:].split()[0]` (line 548); `none` when there is no
token, in which case the indexing raises. -/
def seqIdOfHeader (line : String) : Option String :=
  (((pySplitPredL Char.isWhitespace (line.data.drop 1)).filter
    (fun g => !g.isEmpty)).head?).map (fun g => (⟨g⟩ : String))

/-- One line of the `export_filtered_fasta` copy loop (lines 542-558), on the
state (current `write_seq` flag, output lines so far). -/
def fastaStep (selectedSet : List String) (st : Bool × List String) (line : String) :
    Except String (Bool × List String) :=
  if pyStartsWith '>' line then
    match seqIdOfHeader line with
    | none => .error "IndexError: list index out of range"
    | some seqId =>
        if seqId ∈ selectedSet then .ok (true, st.2 ++ [line])
        else .ok (false, st.2)
  else if st.1 then .ok (st.1, st.2 ++ [line])
  else .ok (st.1, st.2)

/-- Content transformation of `TranscriptScorer.export_filtered_fasta`
(lines 517-565): the lines written to the output file, given the lines of
the input sequence file and the selected-id list. -/
def export_filtered_fasta_lines (inLines : List String) (selectedIds : List String) :
    Except String (List String) :=
  (inLines.foldlM (fastaStep selectedIds) (false, [])).map (fun st => st.2)

/-- Transcript identifiers written as data rows of the score table by
`export_score_table` (lines 674-692): one row per entry of the full scores
mapping, in score-descending order. -/
def scoreTableIds (scores : List (String × ℚ)) : List String :=
  (sortDesc scores).map (fun p => p.1)

/-- Identifiers appearing as record headers in a sequence file. -/
def headerIds (lines : List String) : List String :=
  lines.filterMap (fun l => if pyStartsWith '>' l then seqIdOfHeader l else none)

/-! ### run_scoring (lines 823-914) -/

/-- `true` exactly on `Except.ok`. -/
def isOkE {α : Type} : Except String α → Bool
  | .ok _ => true
  | .error _ => false

/-- BUSCO evidence of `run_scoring` lines 866-871: parse the located table
when the directory exists, otherwise two empty containers. -/
def buscoData : Option (List String) → List String × List (String × BuscoDetail)
  | some ls => parse_busco_rows ls
  | none => ([], [])

/-- Homology evidence of `run_scoring` lines 874-879: parse the file when it
exists, otherwise two empty containers. -/
def homData : Option (List String) → List String × List (String × HomDetail)
  | some ls => parse_homology_results ls
  | none => ([], [])

/-- `run_scoring` (lines 823-914), success flag only (the returned path is
I/O glue).  The three on-disk inputs are modelled by their line lists
(`none` = file/directory absent); the I/O outcome of each of the three
exports is modelled by a boolean oracle (`true` = the export method returned
`True`).  The control flow mirrors the source: missing ORFs (line 861), an
empty selection (line 887) and a failed sequence export (line 896) each
return `false`; the boolean results of `export_score_table` (line 901) and
`generate_integrated_report` (line 905) are discarded — hence the unused
`_scoreOk` and `_reportOk` oracles; parse-level exceptions propagate to the
caller. -/
def run_scoring (gff3Lines : List String) (homLines : Option (List String))
    (buscoLines : Option (List String)) (threshold : ℚ) (topN : Option Int)
    (weights : Option Weights) (fastaOk _scoreOk _reportOk : Bool) :
    Except String Bool :=
  match parse_gff3 gff3Lines with
  | .error e => .error e
  | .ok orfInfo =>
    if orfInfo.isEmpty then .ok false
    else
      match calculate_scores orfInfo (homData homLines).1 (buscoData buscoLines).1
          (buscoData buscoLines).2 weights with
      | .error e => .error e
      | .ok scores =>
        let selectedIds := filter_transcripts scores threshold topN
        if selectedIds.isEmpty then .ok false
        else if !fastaOk then .ok false
        else .ok true

/-! ## Supporting lemmas -/

theorem lookupA_updIns_self {α : Type} (m : List (String × α)) (k : String) (v : α) :
    lookupA (updIns m k v) k = some v := by
  induction m with
  | nil => simp [updIns, lookupA]
  | cons p rest ih =>
    by_cases h : p.1 = k
    · simp [updIns, h, lookupA]
    · simp [updIns, h, lookupA, ih]

theorem lookupA_updIns_ne {α : Type} (m : List (String × α)) (k k' : String) (v : α)
    (h : k ≠ k') : lookupA (updIns m k v) k' = lookupA m k' := by
  induction m with
  | nil => simp [updIns, lookupA, h]
  | cons p rest ih =>
    by_cases hp : p.1 = k
    · simp [updIns, hp, lookupA, h]
    · simp only [updIns, if_neg hp, lookupA]
      by_cases hp' : p.1 = k'
      · simp [hp']
      · simp [hp', ih]

theorem pass1_foldl_error (e : String) (lines : List String) :
    lines.foldl pass1Step (.error e) = .error e := by
  induction lines with
  | nil => rfl
  | cons l rest ih => simpa [pass1Step] using ih

theorem pass2_foldl_error (m : List (String × MrnaInfo)) (e : String) (lines : List String) :
    lines.foldl (pass2Step m) (.error e) = .error e := by
  induction lines with
  | nil => rfl
  | cons l rest ih => simpa [pass2Step] using ih

theorem pass1Step_ignorable (st : Except String (List (String × MrnaInfo))) (line : String)
    (h : gffIgnorable line = true) : pass1Step st line = st := by
  match st with
  | .error e => rfl
  | .ok m =>
    unfold gffIgnorable at h
    unfold pass1Step
    match hv : rowView line with
    | .skip => simp
    | .tooMany => rw [hv] at h; simp at h
    | .fields a b c d e f g hh i =>
      rw [hv] at h
      simp only [Bool.and_eq_true, decide_eq_true_eq] at h
      simp [h.1]

theorem pass2Step_ignorable (m : List (String × MrnaInfo))
    (st : Except String (List (String × ORFRecord))) (line : String)
    (h : gffIgnorable line = true) : pass2Step m st line = st := by
  match st with
  | .error e => rfl
  | .ok tbl =>
    unfold gffIgnorable at h
    unfold pass2Step
    match hv : rowView line with
    | .skip => simp
    | .tooMany => rw [hv] at h; simp at h
    | .fields a b c d e f g hh i =>
      rw [hv] at h
      simp only [Bool.and_eq_true, decide_eq_true_eq] at h
      simp [h.2]

/-- Case analysis of one ok-to-ok step of pass 2: the line is either not a
processable CDS row (state unchanged), or a CDS row that loses the
length comparison (state unchanged), or a retained CDS row (update). -/
theorem pass2Step_ok (m : List (String × MrnaInfo)) (tbl tbl' : List (String × ORFRecord))
    (line : String) (h : pass2Step m (.ok tbl) line = .ok tbl') :
    (cdsRowLen line = none ∧ tbl' = tbl) ∨
    (∃ t len, cdsRowLen line = some (t, len) ∧
      ((∃ old, lookupA tbl t = some old ∧ len ≤ old.length ∧ tbl' = tbl) ∨
       (∃ r, cdsRowRec m line = some (t, r) ∧ r.length = len ∧
          (∀ old, lookupA tbl t = some old → old.length < len) ∧
          tbl' = updIns tbl t r))) := by
  simp only [pass2Step] at h
  revert h
  match hv : rowView line with
  | .skip =>
    intro h
    dsimp only at h
    simp only [Except.ok.injEq] at h
    exact Or.inl ⟨by simp [cdsRowLen, hv], h.symm⟩
  | .tooMany =>
    intro h
    dsimp only at h
    simp at h
  | .fields a b c d e f g hh i =>
    intro h
    dsimp only at h
    by_cases hc : c = "CDS"
    · rw [if_neg (not_not_intro hc)] at h
      by_cases hp : attrGet i "Parent" = ""
      · rw [if_pos hp] at h
        simp only [Except.ok.injEq] at h
        exact Or.inl ⟨by simp [cdsRowLen, hv, hc, hp], h.symm⟩
      · rw [if_neg hp] at h
        revert h
        match hpe : pyInt? e, hpd : pyInt? d with
        | none, _ => intro h; dsimp only at h; simp at h
        | some ei, none => intro h; dsimp only at h; simp at h
        | some ei, some si =>
          intro h
          dsimp only at h
          rw [show lookupA tbl a = lookupA tbl a from rfl] at h
          revert h
          match hl : lookupA tbl a with
          | none =>
            intro h
            dsimp only at h
            rw [if_pos rfl] at h
            revert h
            match hsc : (if f = "." then some (0 : ℚ) else pyFloat? f) with
            | none => intro h; dsimp only at h; simp at h
            | some scq =>
              intro h
              dsimp only at h
              simp only [Except.ok.injEq] at h
              refine Or.inr ⟨a, aaLen si ei,
                by simp [cdsRowLen, hv, hc, hp, hpe, hpd], Or.inr
                ⟨⟨attrGet i "Parent",
                   (match lookupA m (attrGet i "Parent") with
                    | some info => info.type
                    | none => "unknown"), aaLen si ei, scq, si, ei, g⟩,
                 ?_, rfl, ?_, h.symm⟩⟩
              · simp only [cdsRowRec, hv]
                rw [if_neg (not_not_intro hc), if_neg hp, hpe, hpd]
                dsimp only
                rw [hsc]
              · intro old hold; rw [hl] at hold; exact absurd hold (by simp)
          | some old =>
            intro h
            dsimp only at h
            simp only [decide_eq_true_eq] at h
            by_cases hlt : old.length < aaLen si ei
            · rw [if_pos hlt] at h
              revert h
              match hsc : (if f = "." then some (0 : ℚ) else pyFloat? f) with
              | none => intro h; dsimp only at h; simp at h
              | some scq =>
                intro h
                dsimp only at h
                simp only [Except.ok.injEq] at h
                refine Or.inr ⟨a, aaLen si ei,
                  by simp [cdsRowLen, hv, hc, hp, hpe, hpd], Or.inr
                  ⟨⟨attrGet i "Parent",
                     (match lookupA m (attrGet i "Parent") with
                      | some info => info.type
                      | none => "unknown"), aaLen si ei, scq, si, ei, g⟩,
                   ?_, rfl, ?_, h.symm⟩⟩
                · simp only [cdsRowRec, hv]
                  rw [if_neg (not_not_intro hc), if_neg hp, hpe, hpd]
                  dsimp only
                  rw [hsc]
                · intro old' hold'; rw [hl] at hold'
                  cases hold'; exact hlt
            · rw [if_neg hlt] at h
              simp only [Except.ok.injEq] at h
              exact Or.inr ⟨a, aaLen si ei,
                by simp [cdsRowLen, hv, hc, hp, hpe, hpd],
                Or.inl ⟨old, hl, le_of_not_lt hlt, h.symm⟩⟩
    · rw [if_pos hc] at h
      simp only [Except.ok.injEq] at h
      exact Or.inl ⟨by simp [cdsRowLen, hv, hc], h.symm⟩

/-- Invariant of the pass-2 fold: every entry of the final table originates
in the initial table or in a retained CDS row of the processed lines,
dominates the length of every processable CDS row with its transcript id,
and dominates whatever the initial table held under its key. -/
theorem pass2_fold_invariant (m : List (String × MrnaInfo)) :
    ∀ (lines : List String) (tbl0 tbl : List (String × ORFRecord)),
      lines.foldl (pass2Step m) (.ok tbl0) = .ok tbl →
      ∀ t r, lookupA tbl t = some r →
        ((lookupA tbl0 t = some r ∨ ∃ line ∈ lines, cdsRowRec m line = some (t, r)) ∧
         (∀ line ∈ lines, ∀ p, cdsRowLen line = some p → p.1 = t → p.2 ≤ r.length) ∧
         (∀ r0, lookupA tbl0 t = some r0 → r0.length ≤ r.length)) := by
  intro lines
  induction lines with
  | nil =>
    intro tbl0 tbl h t r hr
    simp only [List.foldl_nil, Except.ok.injEq] at h
    subst h
    refine ⟨Or.inl hr, by simp, ?_⟩
    intro r0 hr0
    rw [hr0] at hr
    cases hr
    exact le_refl _
  | cons line rest ih =>
    intro tbl0 tbl h t r hr
    rw [List.foldl_cons] at h
    rcases hst : pass2Step m (.ok tbl0) line with e | tbl1
    · rw [hst, pass2_foldl_error] at h
      simp at h
    · rw [hst] at h
      obtain ⟨ihOrig, ihBound, ihMono⟩ := ih tbl1 tbl h t r hr
      rcases pass2Step_ok m tbl0 tbl1 line hst with
        ⟨hlen, htbl⟩ | ⟨t0, len0, hlen, ⟨old, hold, holdle, htbl⟩ | ⟨r0, hrec, hr0len, hwin, htbl⟩⟩
      · subst htbl
        refine ⟨?_, ?_, ihMono⟩
        · rcases ihOrig with h0 | ⟨l', hl', hrec'⟩
          · exact Or.inl h0
          · exact Or.inr ⟨l', List.mem_cons_of_mem _ hl', hrec'⟩
        · intro l' hl' p hp hpt
          rcases List.mem_cons.mp hl' with rfl | hl''
          · rw [hlen] at hp; cases hp
          · exact ihBound l' hl'' p hp hpt
      · subst htbl
        refine ⟨?_, ?_, ihMono⟩
        · rcases ihOrig with h0 | ⟨l', hl', hrec'⟩
          · exact Or.inl h0
          · exact Or.inr ⟨l', List.mem_cons_of_mem _ hl', hrec'⟩
        · intro l' hl' p hp hpt
          rcases List.mem_cons.mp hl' with rfl | hl''
          · rw [hlen] at hp
            cases hp
            subst hpt
            exact le_trans holdle (ihMono old hold)
          · exact ihBound l' hl'' p hp hpt
      · subst htbl
        by_cases ht : t = t0
        · subst ht
          have hup : lookupA (updIns tbl0 t r0) t = some r0 := lookupA_updIns_self _ _ _
          have hr0r : r0.length ≤ r.length := ihMono r0 hup
          refine ⟨?_, ?_, ?_⟩
          · rcases ihOrig with h0 | ⟨l', hl', hrec'⟩
            · rw [hup] at h0
              cases h0
              exact Or.inr ⟨line, List.mem_cons_self _ _, hrec⟩
            · exact Or.inr ⟨l', List.mem_cons_of_mem _ hl', hrec'⟩
          · intro l' hl' p hp hpt
            rcases List.mem_cons.mp hl' with rfl | hl''
            · rw [hlen] at hp
              cases hp
              rw [hr0len] at hr0r
              exact hr0r
            · exact ihBound l' hl'' p hp hpt
          · intro r0' hr0'
            have := hwin r0' hr0'
            rw [← hr0len] at this
            exact le_trans (le_of_lt this) hr0r
        · have hne : lookupA (updIns tbl0 t0 r0) t = lookupA tbl0 t :=
            lookupA_updIns_ne _ _ _ _ (fun hc => ht hc.symm)
          refine ⟨?_, ?_, ?_⟩
          · rcases ihOrig with h0 | ⟨l', hl', hrec'⟩
            · rw [hne] at h0
              exact Or.inl h0
            · exact Or.inr ⟨l', List.mem_cons_of_mem _ hl', hrec'⟩
          · intro l' hl' p hp hpt
            rcases List.mem_cons.mp hl' with rfl | hl''
            · rw [hlen] at hp
              cases hp
              exact absurd hpt.symm ht
            · exact ihBound l' hl'' p hp hpt
          · intro r0' hr0'
            rw [← hne] at hr0'
            exact ihMono r0' hr0'

theorem insertDesc_perm (p : String × ℚ) (l : List (String × ℚ)) :
    (insertDesc p l).Perm (p :: l) := by
  induction l with
  | nil => simp [insertDesc]
  | cons x rest ih =>
    by_cases h : x.2 > p.2
    · simp only [insertDesc, if_pos h]
      exact List.Perm.trans (ih.cons x) (List.Perm.swap p x rest)
    · simp [insertDesc, h]

theorem sortDesc_perm (l : List (String × ℚ)) : (sortDesc l).Perm l := by
  induction l with
  | nil => simp [sortDesc]
  | cons p rest ih =>
    exact List.Perm.trans (insertDesc_perm p (sortDesc rest)) (ih.cons p)

theorem insertDesc_head (p : String × ℚ) (l : List (String × ℚ)) :
    (insertDesc p l).head? = some p ∨ (insertDesc p l).head? = l.head? := by
  cases l with
  | nil => simp [insertDesc]
  | cons x rest =>
    by_cases h : x.2 > p.2
    · simp [insertDesc, h]
    · simp [insertDesc, h]

theorem insertDesc_chain (p : String × ℚ) (l : List (String × ℚ))
    (h : List.Chain' (fun a b => b.2 ≤ a.2) l) :
    List.Chain' (fun a b => b.2 ≤ a.2) (insertDesc p l) := by
  induction l with
  | nil => simp [insertDesc]
  | cons x rest ih =>
    rw [List.chain'_cons'] at h
    by_cases hgt : x.2 > p.2
    · simp only [insertDesc, if_pos hgt]
      rw [List.chain'_cons']
      refine ⟨?_, ih h.2⟩
      intro y hy
      rcases insertDesc_head p rest with hh | hh
      · rw [hh] at hy
        cases hy
        exact le_of_lt hgt
      · rw [hh] at hy
        exact h.1 y hy
    · simp only [insertDesc, if_neg hgt]
      rw [List.chain'_cons']
      refine ⟨?_, List.chain'_cons'.mpr h⟩
      intro y hy
      cases hy
      exact le_of_not_lt hgt

theorem sortDesc_chain (l : List (String × ℚ)) :
    List.Chain' (fun a b => b.2 ≤ a.2) (sortDesc l) := by
  induction l with
  | nil => simp [sortDesc]
  | cons p rest ih => exact insertDesc_chain p (sortDesc rest) ih

theorem foldl_max_init_le : ∀ (xs : List Int) (a : Int), a ≤ xs.foldl max a := by
  intro xs
  induction xs with
  | nil => intro a; exact le_refl a
  | cons x rest ih =>
    intro a
    exact le_trans (le_max_left a x) (ih (max a x))

theorem mem_le_foldl_max : ∀ (xs : List Int) (a x : Int), x ∈ xs → x ≤ xs.foldl max a := by
  intro xs
  induction xs with
  | nil => intro a x hx; cases hx
  | cons y rest ih =>
    intro a x hx
    rcases List.mem_cons.mp hx with rfl | hx'
    · exact le_trans (le_max_right a x) (foldl_max_init_le rest (max a x))
    · exact ih (max a y) x hx'

theorem le_maxLength {xs : List Int} {x : Int} (h : x ∈ xs) : x ≤ maxLength xs := by
  cases xs with
  | nil => cases h
  | cons y rest =>
    rcases List.mem_cons.mp h with rfl | h'
    · exact foldl_max_init_le rest x
    · exact mem_le_foldl_max rest y x h'

theorem mapM_scoreOne (w : Weights) (bg : List String) (bd : List (String × BuscoDetail))
    (hg : List String) (maxLen : Int) (hml : maxLen ≠ 0) (orf : List (String × ORFRecord)) :
    orf.mapM (scoreOne w bg bd hg maxLen) =
      .ok (orf.map (fun p => (p.1, scoreOnePure w bg bd hg maxLen p))) := by
  induction orf with
  | nil => rfl
  | cons p rest ih =>
    rw [List.mapM_cons, ih]
    simp only [scoreOne, if_neg hml]
    rfl

theorem mem_pySliceTake {α : Type} {l : List α} {n : Int} {x : α}
    (h : x ∈ pySliceTake l n) : x ∈ l := by
  unfold pySliceTake at h
  by_cases hn : 0 ≤ n
  · rw [if_pos hn] at h
    exact List.mem_of_mem_take h
  · rw [if_neg hn] at h
    exact List.mem_of_mem_take h

theorem mem_filter_transcripts {scores : List (String × ℚ)} {th : ℚ} {tn : Option Int}
    {tid : String} (h : tid ∈ filter_transcripts scores th tn) :
    tid ∈ scoreTableIds scores := by
  unfold filter_transcripts at h
  rcases List.mem_map.mp h with ⟨p, hp, hptid⟩
  have hpf : p ∈ (sortDesc scores).filter (fun q => q.2 ≥ th) := by
    revert hp
    cases tn with
    | none => exact fun hp => hp
    | some n =>
      intro hp
      dsimp only at hp
      split at hp
      · exact mem_pySliceTake hp
      · exact hp
  have hps : p ∈ sortDesc scores := List.mem_of_mem_filter hpf
  exact List.mem_map.mpr ⟨p, hps, hptid⟩

theorem headerIds_append (a b : List String) :
    headerIds (a ++ b) = headerIds a ++ headerIds b := by
  simp [headerIds, List.filterMap_append]

/-- Every header id of the output accumulated by the sequence-export fold is
either a selected id or a header id already accumulated. -/
theorem fasta_fold_headers (sel : List String) :
    ∀ (lines : List String) (ws0 : Bool) (out0 : List String) (st : Bool × List String),
      lines.foldlM (fastaStep sel) ((ws0, out0) : Bool × List String) = Except.ok st →
      ∀ tid ∈ headerIds st.2, tid ∈ sel ∨ tid ∈ headerIds out0 := by
  intro lines
  induction lines with
  | nil =>
    intro ws0 out0 st h tid htid
    simp only [List.foldlM_nil] at h
    have hst : Except.ok ((ws0, out0) : Bool × List String) = Except.ok st := h
    rw [Except.ok.injEq] at hst
    rw [← hst] at htid
    exact Or.inr htid
  | cons l rest ih =>
    intro ws0 out0 st h tid htid
    rw [List.foldlM_cons] at h
    rcases hst1 : fastaStep sel (ws0, out0) l with e | st1
    · rw [hst1] at h
      have hcontra : (Except.error e : Except String (Bool × List String)) = Except.ok st := h
      simp at hcontra
    · rw [hst1] at h
      have h' : rest.foldlM (fastaStep sel) st1 = Except.ok st := h
      unfold fastaStep at hst1
      by_cases hh : pyStartsWith '>' l = true
      · rw [if_pos hh] at hst1
        revert hst1
        match hsi : seqIdOfHeader l with
        | none => intro hst1; simp at hst1
        | some tid0 =>
          intro hst1
          dsimp only at hst1
          by_cases hmem : tid0 ∈ sel
          · rw [if_pos hmem] at hst1
            cases hst1
            have := ih true (out0 ++ [l]) st h' tid htid
            rcases this with hl | hr
            · exact Or.inl hl
            · rw [headerIds_append] at hr
              rcases List.mem_append.mp hr with h1 | h2
              · exact Or.inr h1
              · have : tid = tid0 := by
                  simpa [headerIds, hh, hsi] using h2
                rw [this]
                exact Or.inl hmem
          · rw [if_neg hmem] at hst1
            cases hst1
            exact ih false out0 st h' tid htid
      · rw [if_neg hh] at hst1
        by_cases hws : ws0 = true
        · rw [if_pos hws] at hst1
          cases hst1
          have := ih ws0 (out0 ++ [l]) st h' tid htid
          rcases this with hl | hr
          · exact Or.inl hl
          · rw [headerIds_append] at hr
            rcases List.mem_append.mp hr with h1 | h2
            · exact Or.inr h1
            · exact absurd h2 (by simp [headerIds, hh])
        · rw [if_neg hws] at hst1
          cases hst1
          exact ih ws0 out0 st h' tid htid

theorem homStripL_append (l : List Char) (c : Char) (hc : c.isDigit = true) :
    homStripL (l ++ ['.', 'p', c]) = l := by
  have hp : ('p').isDigit = false := by decide
  unfold homStripL
  rw [List.reverse_append]
  simp [List.takeWhile_cons, List.dropWhile_cons, hc, hp]

theorem buscoStripL_append (l : List Char) (c : Char) (hc : c = '1' ∨ c = '2') :
    buscoStripL (l ++ ['.', 'p', c]) = l := by
  unfold buscoStripL
  rw [List.reverse_append]
  rcases hc with rfl | rfl <;>
    simp [List.dropWhile_cons]

/-! ## Claims -/

/-- C1: for exactly three ORF records of amino-acid lengths 100, 250, 400
and completeness classes internal, complete, 5-prime-partial, with no
ortholog and no homology evidence, `calculate_scores` under weights
(ortholog 0, completeness 0.5, homology 0.3, length 0.2) returns the
composite scores 0.20, 0.625 and 0.50 respectively, using the per-criterion
scores of the spec (completeness complete 1.0, partial 0.6, internal 0.3,
unknown 0.0; homology membership 1.0 else 0.0; length normalized by the
maximal length 400). -/
theorem claim_C1_scenarioA :
    calculate_scores
      [("ORF1", ⟨"G1", "internal", 100, 0, 1, 300, "+"⟩),
       ("ORF2", ⟨"G2", "complete", 250, 0, 1, 750, "+"⟩),
       ("ORF3", ⟨"G3", "5prime_partial", 400, 0, 1, 1200, "+"⟩)]
      [] [] [] (some ⟨0, 1/2, 3/10, 1/5⟩) =
    .ok [("ORF1", 1/5), ("ORF2", 5/8), ("ORF3", 1/2)] := by
  unfold calculate_scores
  rw [mapM_scoreOne _ _ _ _ _ (by norm_num [maxLength])]
  norm_num [scoreOnePure, lengthScoreQ, lookupA, effectiveWeights, fallbackWeights, maxLength,
    show completenessScore "internal" = 3/10 from rfl,
    show completenessScore "complete" = 1 from rfl,
    show completenessScore "5prime_partial" = 6/10 from rfl]

/-- C2, counterexample: the homology table built from the single hit row
`G1.p1 → S1` contains the stripped grouping key `G1`, which is exactly the
stripped form of the ORF record's parent id `G1.p1`; yet with weights
isolating the homology criterion (and a non-empty BUSCO set so the weights
are kept) the composite score of the transcript is 0, not 1 — the scoring
loop looks up the raw parent id, not its stripped grouping. -/
theorem claim_C2_counterexample :
    (parse_homology_results ["G1.p1\tS1"]).1 = ["G1"] ∧
    homStripGene "G1.p1" = "G1" ∧
    calculate_scores [("T1", ⟨"G1.p1", "unknown", 3, 0, 1, 9, "+"⟩)]
        (parse_homology_results ["G1.p1\tS1"]).1 ["X"] [] (some ⟨0, 0, 1, 0⟩) =
      .ok [("T1", 0)] := by
  refine ⟨rfl, rfl, ?_⟩
  unfold calculate_scores
  rw [mapM_scoreOne _ _ _ _ _ (by norm_num [maxLength])]
  norm_num [scoreOnePure, lengthScoreQ, lookupA, effectiveWeights, maxLength,
    show completenessScore "unknown" = 0 from rfl,
    show (parse_homology_results ["G1.p1\tS1"]).1 = ["G1"] from rfl,
    show ¬(("G1.p1" : String) ∈ (["G1"] : List String)) from by decide,
    show ¬(("G1.p1" : String) = "G1") from by decide,
    show ¬(("T1" : String) ∈ (["X"] : List String)) from by decide,
    show ¬(("T1" : String) = "X") from by decide]

/-- C2, amended: the homology criterion used in the composite is 1.0 iff the
record's raw, unstripped parent identifier is itself a member of the parsed
(suffix-stripped) homology grouping set, and 0.0 otherwise — shown here with
weights isolating the homology term. -/
theorem claim_C2_amended (orf : List (String × ORFRecord)) (hg bg : List String)
    (bd : List (String × BuscoDetail)) (hbg : bg ≠ [])
    (hml : maxLength (orf.map (fun p => p.2.length)) ≠ 0) :
    calculate_scores orf hg bg bd (some ⟨0, 0, 1, 0⟩) =
      .ok (orf.map (fun p => (p.1, if p.2.gene ∈ hg then (1 : ℚ) else 0))) := by
  unfold calculate_scores
  have hw : effectiveWeights bg (some ⟨0, 0, 1, 0⟩) = ⟨0, 0, 1, 0⟩ := by
    cases bg with
    | nil => exact absurd rfl hbg
    | cons x xs => rfl
  rw [hw, mapM_scoreOne _ _ _ _ _ hml]
  refine congrArg Except.ok ?_
  apply List.map_congr_left
  intro p _
  simp [scoreOnePure]

/-- C2, amended, witness at a concrete input: parent id `G1.p1` against a
grouping set not containing it gives homology score 0. -/
theorem claim_C2_amended_witness :
    calculate_scores [("T1", ⟨"G1.p1", "unknown", 3, 0, 1, 9, "+"⟩)] ["G"] ["X"] []
        (some ⟨0, 0, 1, 0⟩) = .ok [("T1", 0)] := by
  have h := claim_C2_amended [("T1", ⟨"G1.p1", "unknown", 3, 0, 1, 9, "+"⟩)] ["G"] ["X"] []
    (by simp) (by decide)
  simpa using h

/-- C3: the weights actually used by `calculate_scores` are the
caller-supplied ones verbatim when the ortholog-evidence set is non-empty
(with the full-evidence default substituted only when the caller passes
none), and are replaced wholesale by the no-ortholog fallback whenever the
ortholog-evidence set is empty — regardless of the caller's weights, so two
calls with an empty set and different caller weights coincide. -/
theorem claim_C3_weight_policy :
    (∀ (bg : List String) (w : Weights), bg ≠ [] → effectiveWeights bg (some w) = w) ∧
    (∀ (bg : List String), bg ≠ [] → effectiveWeights bg none = defaultWeights) ∧
    (∀ (wo : Option Weights), effectiveWeights [] wo = fallbackWeights) ∧
    (∀ (orf : List (String × ORFRecord)) (hg : List String)
       (bd : List (String × BuscoDetail)) (w : Weights),
       calculate_scores orf hg [] bd (some w) =
         calculate_scores orf hg [] bd (some fallbackWeights)) := by
  refine ⟨?_, ?_, ?_, ?_⟩
  · intro bg w hbg
    cases bg with
    | nil => exact absurd rfl hbg
    | cons x xs => rfl
  · intro bg hbg
    cases bg with
    | nil => exact absurd rfl hbg
    | cons x xs => rfl
  · intro wo
    cases wo <;> rfl
  · intro orf hg bd w
    rfl

/-- C3, witness: with the non-empty ortholog set `[x]` the supplied weights
are used verbatim and the absent weights default. -/
theorem claim_C3_weight_policy_witness :
    effectiveWeights ["x"] (some ⟨1, 2, 3, 4⟩) = ⟨1, 2, 3, 4⟩ ∧
    effectiveWeights ["x"] none = defaultWeights :=
  ⟨claim_C3_weight_policy.1 ["x"] ⟨1, 2, 3, 4⟩ (by simp),
   claim_C3_weight_policy.2.1 ["x"] (by simp)⟩

/-- C4, counterexample: the ortholog parser keeps `x.p3` unstripped (it only
strips `.p1`/`.p2`) while the homology parser strips it to `x`, so the two
normalizations are not the same function; moreover the homology stripping is
not idempotent (`x.p1.p2` strips to `x.p1`, which strips again to `x`). -/
theorem claim_C4_counterexample :
    buscoStripId "x.p3" = "x.p3" ∧ homStripGene "x.p3" = "x" ∧
    (parse_busco_rows ["B1\tComplete\tx.p3"]).1 = ["x.p3"] ∧
    (parse_homology_results ["x.p3\tS1"]).1 = ["x"] ∧
    homStripGene (homStripGene "x.p1.p2") ≠ homStripGene "x.p1.p2" :=
  ⟨rfl, rfl, rfl, rfl, by decide⟩

/-- C4, amended: the two parsers agree only on the suffixes `.p1` and `.p2`:
for every identifier ending in `.p1` or `.p2`, both the ortholog parser's
normalization and the homology parser's normalization remove exactly that
trailing suffix.  (For `.p` suffixes with other digit runs the ortholog
parser strips nothing while the homology parser strips the suffix, and
homology stripping removes only one suffix per application.) -/
theorem claim_C4_amended (t : String) :
    buscoStripId (t ++ ".p1") = t ∧ homStripGene (t ++ ".p1") = t ∧
    buscoStripId (t ++ ".p2") = t ∧ homStripGene (t ++ ".p2") = t := by
  refine ⟨?_, ?_, ?_, ?_⟩
  · show String.mk (buscoStripL (t ++ ".p1").data) = t
    rw [String.data_append, show (".p1" : String).data = ['.', 'p', '1'] from rfl,
      buscoStripL_append _ _ (Or.inl rfl)]
  · show String.mk (homStripL (t ++ ".p1").data) = t
    rw [String.data_append, show (".p1" : String).data = ['.', 'p', '1'] from rfl,
      homStripL_append _ _ (by decide)]
  · show String.mk (buscoStripL (t ++ ".p2").data) = t
    rw [String.data_append, show (".p2" : String).data = ['.', 'p', '2'] from rfl,
      buscoStripL_append _ _ (Or.inr rfl)]
  · show String.mk (homStripL (t ++ ".p2").data) = t
    rw [String.data_append, show (".p2" : String).data = ['.', 'p', '2'] from rfl,
      homStripL_append _ _ (by decide)]

/-- C5, counterexample: at `topN = 0` (a falsy value for Python
`if top_n and ...`) the code keeps every survivor, while the claim's
policy — keep all only when the survivor count is at most `topN`, otherwise
keep the first `topN` — would return the empty selection. -/
theorem claim_C5_counterexample :
    filter_transcripts [("A", 1)] 0 (some 0) = ["A"] ∧
    filter_transcripts_claimC5 [("A", 1)] 0 (some 0) = [] :=
  ⟨rfl, rfl⟩

/-- C5, amended: `filter_transcripts` stable-sorts by score descending (the
sorted list is a permutation of the input and is score-descending; the
insertion sort used is the unique stable such ordering, matching Python's
stable `sorted`), drops the entries below the threshold, and keeps all
survivors when `topN` is unset or zero, while a positive `topN` keeps the
first `topN` survivors (all of them when fewer survive); on Scenario A's
scores with threshold 0.5 and `topN` 1 the selection is exactly `[ORF2]`. -/
theorem claim_C5_amended :
    (∀ (scores : List (String × ℚ)) (th : ℚ),
      (sortDesc scores).Perm scores ∧
      List.Chain' (fun a b => b.2 ≤ a.2) (sortDesc scores) ∧
      filter_transcripts scores th none =
        ((sortDesc scores).filter (fun p => p.2 ≥ th)).map (fun p => p.1) ∧
      filter_transcripts scores th (some 0) =
        ((sortDesc scores).filter (fun p => p.2 ≥ th)).map (fun p => p.1)) ∧
    (∀ (scores : List (String × ℚ)) (th : ℚ) (n : Int), 0 < n →
      filter_transcripts scores th (some n) =
        (((sortDesc scores).filter (fun p => p.2 ≥ th)).take n.toNat).map (fun p => p.1)) ∧
    filter_transcripts [("ORF1", 1/5), ("ORF2", 5/8), ("ORF3", 1/2)] (1/2) (some 1) =
      ["ORF2"] := by
  refine ⟨?_, ?_, ?_⟩
  case refine_3 =>
    norm_num [filter_transcripts, sortDesc, insertDesc, pySliceTake, decide_eq_true_eq,
      List.filter_cons]
  · intro scores th
    refine ⟨sortDesc_perm scores, sortDesc_chain scores, rfl, ?_⟩
    unfold filter_transcripts
    dsimp only
    rw [if_neg (by simp)]
  · intro scores th n hn
    unfold filter_transcripts
    dsimp only
    by_cases hlen : (((sortDesc scores).filter (fun p => p.2 ≥ th)).length : Int) > n
    · rw [if_pos ⟨ne_of_gt hn, hlen⟩]
      unfold pySliceTake
      rw [if_pos (le_of_lt hn)]
    · rw [if_neg (by intro hc; exact hlen hc.2)]
      have hle : (((sortDesc scores).filter (fun p => p.2 ≥ th)).length : Int) ≤ n :=
        le_of_not_lt hlen
      rw [List.take_of_length_le (by omega)]

/-- C5, amended, witness: a positive cap of 1 on two survivors keeps the
first sorted survivor. -/
theorem claim_C5_amended_witness :
    filter_transcripts [("A", 1), ("B", 2)] 0 (some 1) =
      (((sortDesc [("A", 1), ("B", 2)]).filter (fun p => p.2 ≥ 0)).take (1 : Int).toNat).map
        (fun p => p.1) :=
  claim_C5_amended.2.1 [("A", 1), ("B", 2)] 0 1 (by norm_num)

/-- C6: the amino-acid length of a well-formed CDS row (1-based GFF3
coordinates with start ≤ end) is `(end - start + 1) // 3` with floor
division and is never negative; and every record of a successful
`parse_gff3` run was built from some retained CDS row of the file and its
length dominates every processable CDS row sharing its transcript id —
segments are compared, never summed. -/
theorem claim_C6_gff3_lengths :
    (∀ s e : Int, 1 ≤ s → s ≤ e → aaLen s e = (e - s + 1).fdiv 3 ∧ 0 ≤ aaLen s e) ∧
    (∀ (lines : List String) (tbl : List (String × ORFRecord)),
      parse_gff3 lines = .ok tbl →
      ∀ t r, lookupA tbl t = some r →
        (∃ m, pass1 lines = .ok m ∧ ∃ line ∈ lines, cdsRowRec m line = some (t, r)) ∧
        (∀ line ∈ lines, ∀ p, cdsRowLen line = some p → p.1 = t → p.2 ≤ r.length)) := by
  constructor
  · intro s e hs hse
    refine ⟨rfl, ?_⟩
    unfold aaLen
    apply Int.fdiv_nonneg
    · omega
    · omega
  · intro lines tbl h t r hr
    unfold parse_gff3 at h
    revert h
    match hp1 : pass1 lines with
    | .error e => intro h; simp at h
    | .ok m =>
      intro h
      obtain ⟨horig, hbound, _⟩ := pass2_fold_invariant m lines [] tbl h t r hr
      refine ⟨⟨m, rfl, ?_⟩, hbound⟩
      rcases horig with h0 | hex
      · simp [lookupA] at h0
      · exact hex

/-- C6, witness: in a two-row file for transcript `t1` with spans 1-9 and
1-300, the retained record is the 100-aa one built from the longer row, and
it dominates both rows' lengths. -/
theorem claim_C6_gff3_lengths_witness :
    (aaLen 1 300 = ((300 : Int) - 1 + 1).fdiv 3 ∧ 0 ≤ aaLen 1 300) ∧
    ((∃ m, pass1 ["t1\tsrc\tCDS\t1\t9\t.\t+\t0\tParent=m1",
                  "t1\tsrc\tCDS\t1\t300\t.\t+\t0\tParent=m1"] = .ok m ∧
       ∃ line ∈ ["t1\tsrc\tCDS\t1\t9\t.\t+\t0\tParent=m1",
                 "t1\tsrc\tCDS\t1\t300\t.\t+\t0\tParent=m1"],
         cdsRowRec m line = some ("t1", ⟨"m1", "unknown", 100, 0, 1, 300, "+"⟩)) ∧
     (∀ line ∈ ["t1\tsrc\tCDS\t1\t9\t.\t+\t0\tParent=m1",
                "t1\tsrc\tCDS\t1\t300\t.\t+\t0\tParent=m1"],
        ∀ p, cdsRowLen line = some p → p.1 = "t1" →
          p.2 ≤ (⟨"m1", "unknown", 100, 0, 1, 300, "+"⟩ : ORFRecord).length)) :=
  ⟨claim_C6_gff3_lengths.1 1 300 (by norm_num) (by norm_num),
   claim_C6_gff3_lengths.2
     ["t1\tsrc\tCDS\t1\t9\t.\t+\t0\tParent=m1", "t1\tsrc\tCDS\t1\t300\t.\t+\t0\tParent=m1"]
     [("t1", ⟨"m1", "unknown", 100, 0, 1, 300, "+"⟩)] rfl
     "t1" ⟨"m1", "unknown", 100, 0, 1, 300, "+"⟩ rfl⟩

/-- C7, counterexample: a CDS row whose start field is not an integer makes
the whole parse abort with an error — it is not skipped per-row — even
though a well-formed row of the same file parses fine on its own. -/
theorem claim_C7_counterexample :
    isOkE (parse_gff3 ["t1\tsrc\tCDS\tX\t300\t.\t+\t0\tParent=m1",
                       "t1\tsrc\tCDS\t1\t300\t.\t+\t0\tParent=m1"]) = false ∧
    parse_gff3 ["t1\tsrc\tCDS\t1\t300\t.\t+\t0\tParent=m1"] =
      .ok [("t1", ⟨"m1", "unknown", 100, 0, 1, 300, "+"⟩)] :=
  ⟨rfl, rfl⟩

/-- C7, amended: blank lines, comment lines, rows with fewer than 9 tab
fields and 9-field rows of unrecognized feature type are skipped silently
and never abort the parse — removing such a row from anywhere in the file
leaves the parse result unchanged, so all well-formed rows are still
parsed; but a CDS row with an unparsable number aborts the whole parse
(see the counterexample). -/
theorem claim_C7_amended (pre post : List String) (line : String)
    (h : gffIgnorable line = true) :
    parse_gff3 (pre ++ line :: post) = parse_gff3 (pre ++ post) := by
  unfold parse_gff3
  have h1 : pass1 (pre ++ line :: post) = pass1 (pre ++ post) := by
    unfold pass1
    rw [List.foldl_append, List.foldl_append, List.foldl_cons, pass1Step_ignorable _ _ h]
  rw [h1]
  cases hm : pass1 (pre ++ post) with
  | error e => rfl
  | ok m =>
    dsimp only
    unfold pass2
    rw [List.foldl_append, List.foldl_append, List.foldl_cons, pass2Step_ignorable m _ _ h]

/-- C7, amended, witness: dropping a `gene`-type row after a CDS row leaves
the parse unchanged. -/
theorem claim_C7_amended_witness :
    parse_gff3 ["t1\tsrc\tCDS\t1\t300\t.\t+\t0\tParent=m1",
                "t1\tsrc\tgene\t1\t300\t.\t+\t.\tID=g1"] =
      parse_gff3 ["t1\tsrc\tCDS\t1\t300\t.\t+\t0\tParent=m1"] :=
  claim_C7_amended ["t1\tsrc\tCDS\t1\t300\t.\t+\t0\tParent=m1"] []
    "t1\tsrc\tgene\t1\t300\t.\t+\t.\tID=g1" rfl

/-- C8, counterexample: the score table lists every scored transcript while
the exported sequence file only contains the selected ones, so on a run
whose selection (threshold 0.5) drops transcript `B`, the two id sets
differ: `B` is a score-table row but not an exported header. -/
theorem claim_C8_counterexample :
    filter_transcripts [("A", 1), ("B", 0)] (1/2) none = ["A"] ∧
    export_filtered_fasta_lines [">A", "AAA", ">B", "CCC"] ["A"] = .ok [">A", "AAA"] ∧
    scoreTableIds [("A", 1), ("B", 0)] = ["A", "B"] ∧
    headerIds [">A", "AAA"] = ["A"] ∧
    ("B" : String) ≠ "A" := by
  refine ⟨?_, rfl, ?_, rfl, by decide⟩
  · norm_num [filter_transcripts, sortDesc, insertDesc, decide_eq_true_eq, List.filter_cons]
  · norm_num [scoreTableIds, sortDesc, insertDesc]

/-- C8, amended: one inclusion of the round-trip holds — every identifier
appearing as a record header of the exported selected-sequence file is also
a row of the score table (the headers come from the selection, which is a
subset of the scored transcripts); the reverse inclusion fails whenever
filtering drops a transcript. -/
theorem claim_C8_amended (scores : List (String × ℚ)) (th : ℚ) (topN : Option Int)
    (inLines out : List String)
    (h : export_filtered_fasta_lines inLines (filter_transcripts scores th topN) = .ok out) :
    ∀ tid ∈ headerIds out, tid ∈ scoreTableIds scores := by
  intro tid htid
  unfold export_filtered_fasta_lines at h
  rcases hf : inLines.foldlM (fastaStep (filter_transcripts scores th topN))
      ((false, []) : Bool × List String) with e | st
  · rw [hf] at h
    simp [Except.map] at h
  · rw [hf] at h
    have hout : st.2 = out := by
      simpa [Except.map] using h
    rw [← hout] at htid
    rcases fasta_fold_headers _ inLines false [] st hf tid htid with hsel | hempty
    · exact mem_filter_transcripts hsel
    · simp [headerIds] at hempty

/-- C8, amended, witness: on the concrete run of the counterexample, the
exported header `A` is indeed a score-table row. -/
theorem claim_C8_amended_witness :
    ("A" : String) ∈ scoreTableIds [("A", 1), ("B", 0)] := by
  have hft : filter_transcripts [("A", 1), ("B", 0)] (1/2) none = ["A"] := by
    norm_num [filter_transcripts, sortDesc, insertDesc, decide_eq_true_eq, List.filter_cons]
  have h := claim_C8_amended [("A", 1), ("B", 0)] (1/2) none
    [">A", "AAA", ">B", "CCC"] [">A", "AAA"] (by rw [hft]; exact rfl)
  exact h "A" (by decide)

/-- C9, counterexample: a run whose score-table export fails (`scoreOk`
oracle false) still reports overall success, because `run_scoring` discards
the boolean results of the score-table and integrated-report exports; and an
unparsable number in the GFF3 file escapes `run_scoring` as an exception
rather than a boolean failure. -/
theorem claim_C9_counterexample :
    run_scoring ["t1\tsrc\tCDS\t1\t300\t.\t+\t0\tParent=m1"] none none 0 none none
      true false true = .ok true ∧
    isOkE (run_scoring ["t1\tsrc\tCDS\tX\t300\t.\t+\t0\tParent=m1"] none none 0 none none
      true true true) = false := by
  constructor
  · have hcs : calculate_scores [("t1", ⟨"m1", "unknown", 100, 0, 1, 300, "+"⟩)]
        (homData none).1 (buscoData none).1 (buscoData none).2 none = .ok [("t1", 1/5)] := by
      unfold calculate_scores
      rw [mapM_scoreOne _ _ _ _ _ (by norm_num [maxLength])]
      norm_num [scoreOnePure, lengthScoreQ, lookupA, effectiveWeights, fallbackWeights,
        maxLength, homData, buscoData, show completenessScore "unknown" = 0 from rfl]
    have hft : filter_transcripts [("t1", (1 : ℚ)/5)] 0 none = ["t1"] := by
      norm_num [filter_transcripts, sortDesc, insertDesc, decide_eq_true_eq, List.filter_cons]
    unfold run_scoring
    rw [show parse_gff3 ["t1\tsrc\tCDS\t1\t300\t.\t+\t0\tParent=m1"] =
      .ok [("t1", ⟨"m1", "unknown", 100, 0, 1, 300, "+"⟩)] from rfl]
    dsimp only
    rw [hcs]
    dsimp only
    rw [hft]
    rfl
  · rfl

/-- C9, amended: on a run whose parses succeed, `run_scoring` reports
success iff ORFs were parsed, the selection is non-empty and the sequence
export succeeded — the outcomes of the score-table and integrated-report
writes do not influence the result, and parse exceptions propagate. -/
theorem claim_C9_amended (gff3Lines : List String) (homLines buscoLines : Option (List String))
    (th : ℚ) (topN : Option Int) (w : Option Weights) (fastaOk scoreOk reportOk : Bool)
    (orf : List (String × ORFRecord)) (scores : List (String × ℚ))
    (hparse : parse_gff3 gff3Lines = .ok orf)
    (hscores : calculate_scores orf (homData homLines).1 (buscoData buscoLines).1
        (buscoData buscoLines).2 w = .ok scores) :
    run_scoring gff3Lines homLines buscoLines th topN w fastaOk scoreOk reportOk = .ok true ↔
      (orf ≠ [] ∧ filter_transcripts scores th topN ≠ [] ∧ fastaOk = true) := by
  unfold run_scoring
  rw [hparse]
  dsimp only
  rw [hscores]
  by_cases ho : orf.isEmpty
  · rw [if_pos ho]
    have : orf = [] := by
      cases orf with
      | nil => rfl
      | cons x xs => simp [List.isEmpty] at ho
    simp [this]
  · rw [if_neg ho]
    dsimp only
    have hone : orf ≠ [] := by
      cases orf with
      | nil => simp [List.isEmpty] at ho
      | cons x xs => simp
    by_cases hs : (filter_transcripts scores th topN).isEmpty
    · rw [if_pos hs]
      have : filter_transcripts scores th topN = [] := by
        cases hft : filter_transcripts scores th topN with
        | nil => rfl
        | cons x xs => rw [hft] at hs; simp [List.isEmpty] at hs
      simp [this]
    · rw [if_neg hs]
      have hsne : filter_transcripts scores th topN ≠ [] := by
        cases hft : filter_transcripts scores th topN with
        | nil => rw [hft] at hs; simp [List.isEmpty] at hs
        | cons x xs => simp
      cases fastaOk with
      | true => simp [hone, hsne]
      | false => simp [hone, hsne]

/-- C9, amended, witness: a fully successful concrete run reports success. -/
theorem claim_C9_amended_witness :
    run_scoring ["t1\tsrc\tCDS\t1\t300\t.\t+\t0\tParent=m1"] none none 0 none none
      true true true = .ok true := by
  have hcs : calculate_scores [("t1", ⟨"m1", "unknown", 100, 0, 1, 300, "+"⟩)]
      (homData none).1 (buscoData none).1 (buscoData none).2 none = .ok [("t1", 1/5)] := by
    unfold calculate_scores
    rw [mapM_scoreOne _ _ _ _ _ (by norm_num [maxLength])]
    norm_num [scoreOnePure, lengthScoreQ, lookupA, effectiveWeights, fallbackWeights,
      maxLength, homData, buscoData, show completenessScore "unknown" = 0 from rfl]
  have hft : filter_transcripts [("t1", (1 : ℚ)/5)] 0 none = ["t1"] := by
    norm_num [filter_transcripts, sortDesc, insertDesc, decide_eq_true_eq, List.filter_cons]
  have h := claim_C9_amended ["t1\tsrc\tCDS\t1\t300\t.\t+\t0\tParent=m1"] none none 0 none
    none true true true [("t1", ⟨"m1", "unknown", 100, 0, 1, 300, "+"⟩)] [("t1", 1/5)]
    rfl hcs
  rw [h]
  refine ⟨by simp, ?_, rfl⟩
  rw [hft]
  simp

/-- C10, counterexample: `max(..., default=1)` only applies its default to
an empty table; for the non-empty table whose single retained ORF has
amino-acid length 0, the normalization divisor is 0, and `calculate_scores`
fails with a division error instead of producing a defined length score. -/
theorem claim_C10_counterexample :
    maxLength ([(("T", ⟨"G", "unknown", 0, 0, 1, 1, "+"⟩) : String × ORFRecord)].map
      (fun p => p.2.length)) = 0 ∧
    isOkE (calculate_scores [("T", ⟨"G", "unknown", 0, 0, 1, 1, "+"⟩)] [] [] [] none) = false :=
  ⟨rfl, rfl⟩

/-- C10, amended: when some retained ORF has positive length (and none is
negative), the normalization divisor is positive, `calculate_scores`
succeeds, and every per-transcript length score lies in [0, 1]; the
all-zero-length non-empty table of the counterexample is the case where the
divisor is 0 and the scores are undefined. -/
theorem claim_C10_amended (orf : List (String × ORFRecord)) (hg bg : List String)
    (bd : List (String × BuscoDetail)) (w : Option Weights)
    (hnn : ∀ l ∈ orf.map (fun p => p.2.length), 0 ≤ l)
    (hpos : ∃ l ∈ orf.map (fun p => p.2.length), 0 < l) :
    0 < maxLength (orf.map (fun p => p.2.length)) ∧
    isOkE (calculate_scores orf hg bg bd w) = true ∧
    ∀ l ∈ orf.map (fun p => p.2.length),
      0 ≤ lengthScoreQ l (maxLength (orf.map (fun p => p.2.length))) ∧
      lengthScoreQ l (maxLength (orf.map (fun p => p.2.length))) ≤ 1 := by
  obtain ⟨l0, hl0, hl0pos⟩ := hpos
  have hmax : 0 < maxLength (orf.map (fun p => p.2.length)) :=
    lt_of_lt_of_le hl0pos (le_maxLength hl0)
  refine ⟨hmax, ?_, ?_⟩
  · unfold calculate_scores
    rw [mapM_scoreOne _ _ _ _ _ (ne_of_gt hmax)]
    rfl
  · intro l hl
    constructor
    · unfold lengthScoreQ
      apply div_nonneg
      · exact_mod_cast hnn l hl
      · exact_mod_cast le_of_lt hmax
    · unfold lengthScoreQ
      rw [div_le_one (by exact_mod_cast hmax)]
      exact_mod_cast le_maxLength hl

/-- C10, amended, witness: a singleton table of length 2 has positive
divisor and a defined scoring run. -/
theorem claim_C10_amended_witness :
    0 < maxLength ([(("T", ⟨"G", "unknown", 2, 0, 1, 6, "+"⟩) : String × ORFRecord)].map
      (fun p => p.2.length)) ∧
    isOkE (calculate_scores [("T", ⟨"G", "unknown", 2, 0, 1, 6, "+"⟩)] [] [] [] none) = true := by
  have h := claim_C10_amended [("T", ⟨"G", "unknown", 2, 0, 1, 6, "+"⟩)] [] [] [] none
    (by decide) (by decide)
  exact ⟨h.1, h.2.1⟩

end Orpheus
